import Mathlib

set_option maxRecDepth 10000

/-! # Verification development for the crig template engine

Shallow embedding of the two near-duplicate CLI implementations of this
repository, `src/clirig/cli.py` and `src/crig/cli.py`: the line normalizer,
the template parser, the structure validator, the tree renderer and a pure
path model of the filesystem materializer.

Python strings are sequences of code points and are modelled as Lean
`String` / `List Char` (slicing such as `raw[i:i+4]` is code-point based in
both).  Python `str.strip()` / `str.split()` and the regex class `\s` are
modelled over the ASCII whitespace characters (space, tab, newline,
carriage return, vertical tab, form feed); no character involved in the
claims is non-ASCII whitespace.  `os.path.join` is modelled by lists of
path components, and the filesystem side effects of `generate` are
modelled by the ordered list of target paths it touches. -/

/-- ASCII whitespace: the characters Python `str.strip()` removes and the
regex class `\s` matches, for the inputs considered here. -/
def isPySpace (c : Char) : Bool :=
  c == ' ' || c == '\t' || c == '\n' || c == '\r' || c == '\x0b' || c == '\x0c'

/-- Python `line.rstrip("\n")`: remove every trailing newline character. -/
def rstripNL (l : List Char) : List Char :=
  (l.reverse.dropWhile (· == '\n')).reverse

/-- Python `s.strip()`: remove leading and trailing whitespace. -/
def pyStrip (l : List Char) : List Char :=
  ((l.dropWhile isPySpace).reverse.dropWhile isPySpace).reverse

/-- Python `s.split()[0]` (empty result for an all-whitespace string): the
first whitespace-delimited token. -/
def firstTok (l : List Char) : List Char :=
  (l.dropWhile isPySpace).takeWhile (fun c => !isPySpace c)

/-- One 4-character indentation chunk of the space-indent dialect:
`"│   "` (box-drawing continuation) or `"    "` (four spaces).  Both have
the shape first-char `'│'` or `' '` followed by three spaces. -/
def isTreeChunk (c1 c2 c3 c4 : Char) : Bool :=
  (c1 == '│' || c1 == ' ') && c2 == ' ' && c3 == ' ' && c4 == ' '

/-- The chunk-scan loop of `normalize_line` (both implementations): scan the
line in 4-character chunks from the start, counting chunks equal to
`"│   "` or `"    "`, stopping at the first chunk matching neither (a
shorter final slice never matches a 4-character chunk). -/
def countChunks : List Char → Nat
  | c1 :: c2 :: c3 :: c4 :: rest =>
    if isTreeChunk c1 c2 c3 c4 then countChunks rest + 1 else 0
  | _ => 0

/-- Character class `[│\s]` of `TREE_PREFIX_RE`. -/
def isBarOrSpace (c : Char) : Bool :=
  c == '│' || isPySpace c

/-- `TREE_PREFIX_RE.sub("", raw)` for the anchored pattern
`^[│\s]*[├└]──\s*`: since `[│\s]` is disjoint from `[├└]`, the greedy
leading class run is forced, so the regex matches exactly when the first
character after the leading `│`/whitespace run is `├` or `└` followed by
`──`; the match (including the trailing whitespace run) is removed,
otherwise the line is unchanged. -/
def stripTreeGlyphs (l : List Char) : List Char :=
  match l.dropWhile isBarOrSpace with
  | c :: '─' :: '─' :: rest =>
    if c == '├' || c == '└' then rest.dropWhile isPySpace else l
  | _ => l

/-- The indentation-dialect branch shared verbatim by both
`normalize_line`s: a line starting with a tab is tab-indented (level = the
number of leading tabs, content = the stripped line); otherwise the level
is the chunk count and the content is the stripped remainder after
`TREE_PREFIX_RE` substitution. -/
def lineIndentContent (raw : List Char) : Nat × List Char :=
  if raw.head? = some '\t' then
    ((raw.takeWhile (· == '\t')).length, pyStrip raw)
  else
    (countChunks raw, pyStrip (stripTreeGlyphs raw))

/-- One parsed template entry `(lineno, level, name)`. -/
structure Entry where
  lineno : Nat
  level : Nat
  name : String
  deriving DecidableEq

/-- Python `name.endswith("/")`. -/
def endsWithSlash (s : String) : Bool :=
  s.data.getLast? == some '/'

/-- Python `name.rstrip("/")`. -/
def rstripSlash (s : String) : String :=
  ⟨(s.data.reverse.dropWhile (· == '/')).reverse⟩

/-- The `seen = defaultdict(set)` of the validators, modelled as a function
from level to the list of names recorded at that level (only membership is
ever observed). -/
def seenEmpty : Nat → List String := fun _ => []

/-- `seen[level].add(name)`. -/
def seenAdd (seen : Nat → List String) (level : Nat) (name : String) :
    Nat → List String :=
  fun l => if l == level then name :: seen l else seen l

/-- The `(level, name)` view of an entry, the datum the round-trip claim is
about. -/
def levelName (e : Entry) : Nat × String := (e.level, e.name)

namespace Clirig

/-- Membership in `ALLOWED_CHARS` of `src/clirig/cli.py`: ASCII letters,
digits, and `.`, `_`, `-`, `/`. -/
def allowedChar (c : Char) : Bool :=
  c.isAlphanum || c == '.' || c == '_' || c == '-' || c == '/'

/-- `name.startswith(("/", "-", "—", "!", "?", "#", "*", "(")) or
name.startswith("//")` (the `"//"` test is subsumed by `"/"` but kept). -/
def forbiddenStart (name : List Char) : Bool :=
  (match name.head? with
   | some c =>
     c == '/' || c == '-' || c == '—' || c == '!' || c == '?' ||
       c == '#' || c == '*' || c == '('
   | none => false)
  || name.take 2 == ['/', '/']

/-- `normalize_line` of `src/clirig/cli.py`: returns the normalized line
(`"\t" * indent + name`) or the drop reason. -/
def normalize_line (line : String) : Except String String :=
  let raw := rstripNL line.data
  if pyStrip raw = [] then .error "empty line"
  else
    let ic := lineIndentContent raw
    if ic.2 = [] then .error "no filename detected"
    else
      let name := firstTok ic.2
      if forbiddenStart name then .error "invalid name prefix"
      else if !name.all allowedChar then .error "invalid characters in name"
      else .ok ⟨List.replicate ic.1 '\t' ++ name⟩

/-- The loop body of `parse_template`, with the 1-based line counter made
explicit (the `explain` flag only prints and is omitted). -/
def parseGo : List String → Nat → List Entry
  | [], _ => []
  | l :: rest, n =>
    match normalize_line l with
    | .error _ => parseGo rest (n + 1)
    | .ok norm =>
      { lineno := n
        level := (norm.data.takeWhile (· == '\t')).length
        name := ⟨norm.data.dropWhile (· == '\t')⟩ } :: parseGo rest (n + 1)

/-- `parse_template` of `src/clirig/cli.py`, over the list of input lines. -/
def parse_template (lines : List String) : List Entry :=
  parseGo lines 1

/-- The phase-1 error message of `validate_structure`
(`src/clirig/cli.py`, lines 141-144). -/
def noRootMsg (e : Entry) : String :=
  "Line " ++ toString e.lineno ++ ": entry " ++ "'" ++ e.name ++ "'" ++
    " has level " ++ toString e.level ++ " but no root directory defined above"

/-- Phase 1 of `validate_structure`: scan for an entry with level > 0
before the first level-0 entry; on the first violation return its message
(the Python code appends it and returns at once). -/
def rootCheck : List Entry → Bool → Option String
  | [], _ => none
  | e :: rest, seenRoot =>
    if e.level == 0 then rootCheck rest true
    else if !seenRoot then some (noRootMsg e)
    else rootCheck rest seenRoot

/-- `f"Line {lineno}: invalid indentation jump → {name}"`. -/
def jumpMsg (e : Entry) : String :=
  "Line " ++ toString e.lineno ++ ": invalid indentation jump → " ++ e.name

/-- `f"Line {lineno}: file cannot have children → {parent}"`. -/
def childMsg (lineno : Nat) (parent : String) : String :=
  "Line " ++ toString lineno ++ ": file cannot have children → " ++ parent

/-- The main loop of `validate_structure` (`src/clirig/cli.py`, lines
152-169).  Each `continue` path skips the `seen`/`stack` update. -/
def validateGo : List Entry → List String → (Nat → List String) →
    List String → List String
  | [], _, _, errors => errors
  | e :: rest, stack, seen, errors =>
    if e.level > stack.length + 1 then
      validateGo rest stack seen (errors ++ [jumpMsg e])
    else if e.level == stack.length + 1 && !stack.isEmpty &&
        !endsWithSlash (stack.getLast?.getD "") then
      validateGo rest stack seen
        (errors ++ [childMsg e.lineno (stack.getLast?.getD "")])
    else if (seen e.level).contains e.name then
      validateGo rest stack seen errors
    else
      validateGo rest (stack.take e.level ++ [e.name])
        (seenAdd seen e.level e.name) errors

/-- `validate_structure` of `src/clirig/cli.py`. -/
def validate_structure (entries : List Entry) : List String :=
  match rootCheck entries false with
  | some msg => [msg]
  | none =>
    let roots := (entries.filter (fun e => e.level == 0)).map (·.name)
    if roots.isEmpty then
      ["Template must contain at least one root directory (level 0)."]
    else
      validateGo entries [] seenEmpty []

/-- The `is_last` test of the `render_tree` loop: the entry is last among
its siblings when it is the final entry overall or the next entry's level
is at most its own (`i == len(structure) - 1 or structure[i + 1][1] <=
level`). -/
def isLastEntry (e : Entry) (rest : List Entry) : Bool :=
  match rest with
  | [] => true
  | e2 :: _ => decide (e2.level ≤ e.level)

/-- The loop of `render_tree` (`src/clirig/cli.py`, lines 185-202),
producing the list of rendered lines; `last_at_level` is the running
per-level "is this ancestor last" stack. -/
def renderLines : List Entry → List Bool → List String
  | [], _ => []
  | e :: rest, lastAtLevel =>
    let la1 :=
      if lastAtLevel.length > e.level then lastAtLevel.take e.level
      else lastAtLevel
    let isLast : Bool := isLastEntry e rest
    let la2 :=
      if la1.length == e.level then la1 ++ [isLast]
      else la1.take e.level ++ [isLast]
    let pfx :=
      String.join (la2.dropLast.map (fun b => if b then "    " else "│   "))
    let connector := if isLast then "└── " else "├── "
    (pfx ++ (connector ++ e.name)) :: renderLines rest la2

/-- `render_tree` of `src/clirig/cli.py`. -/
def render_tree (entries : List Entry) : String :=
  if entries.isEmpty then "" else String.intercalate "\n" (renderLines entries [])

/-- The path-building loop of `generate` (`src/clirig/cli.py`, lines
224-244): for each entry, the stack is truncated to the entry's level, the
target path is `base ++ stack ++ [name.rstrip("/")]`, and directory names
are pushed back onto the stack. -/
def generateGo (base : List String) : List Entry → List String →
    List (List String)
  | [], _ => []
  | e :: rest, stack =>
    let stack1 := stack.take e.level
    let path := base ++ stack1 ++ [rstripSlash e.name]
    let stack2 :=
      if endsWithSlash e.name then stack1 ++ [rstripSlash e.name] else stack1
    path :: generateGo base rest stack2

/-- Pure model of `generate` (`src/clirig/cli.py`, lines 211-244): the
ordered list of filesystem paths it ensures (as component lists) together
with the `root_name` used for boilerplate substitution.  With more than
one level-0 root the base path gains the synthetic `crig_root` wrapper
component. -/
def generate_plan (entries : List Entry) (basePath : List String) :
    List (List String) × String :=
  let roots := (entries.filter (fun e => e.level == 0)).map (·.name)
  let base := if roots.length > 1 then basePath ++ ["crig_root"] else basePath
  (generateGo base entries [], rstripSlash (roots.headD ""))

/-- The `--dry-run` branch of `entry_point` (`src/clirig/cli.py`, lines
293-304): parse, validate, and on success render the unchanged parse
result; on validation errors nothing is rendered. -/
def dry_run (lines : List String) : Option String :=
  let entries := parse_template lines
  let errors := validate_structure entries
  if errors.isEmpty then some (render_tree entries) else none

/-- A name as the normalizer emits it: nonempty, every character in
`ALLOWED_CHARS`, and not starting with a forbidden prefix character. -/
def validNameB (s : String) : Bool :=
  !s.data.isEmpty && s.data.all allowedChar && !forbiddenStart s.data

end Clirig

namespace Crig

/-- `c.isalnum() or c in "_-./"` of `src/crig/cli.py` (Python `isalnum` is
Unicode-aware; the claims only involve ASCII names, for which
`Char.isAlphanum` agrees). -/
def allowedChar (c : Char) : Bool :=
  c.isAlphanum || c == '_' || c == '-' || c == '.' || c == '/'

/-- The `invalid_starts` characters `(`, `[`, `-`, `/`, `—`, `!`, `?`,
`#`, `*`: `name.startswith(tuple(invalid_starts)) or
name.startswith("//")`. -/
def invalidStart (name : List Char) : Bool :=
  (match name.head? with
   | some c =>
     c == '(' || c == '[' || c == '-' || c == '/' || c == '—' ||
       c == '!' || c == '?' || c == '#' || c == '*'
   | none => false)
  || name.take 2 == ['/', '/']

/-- `normalize_line` of `src/crig/cli.py`: returns `"\t" * indent + name`,
or `""` when the line is dropped. -/
def normalize_line (line : String) : String :=
  let raw := rstripNL line.data
  let ic := lineIndentContent raw
  if ic.2 = [] then ""
  else
    let name := firstTok ic.2
    if invalidStart name then ""
    else if !name.all allowedChar then ""
    else ⟨List.replicate ic.1 '\t' ++ name⟩

/-- The loop body of `parse_template` (`src/crig/cli.py`, lines 100-110):
blank lines are skipped before normalization, and a falsy (empty)
normalization result is skipped. -/
def parseGo : List String → Nat → List Entry
  | [], _ => []
  | l :: rest, n =>
    if pyStrip l.data = [] then parseGo rest (n + 1)
    else
      let norm := normalize_line ⟨rstripNL l.data⟩
      if norm = "" then parseGo rest (n + 1)
      else
        { lineno := n
          level := (norm.data.takeWhile (· == '\t')).length
          name := ⟨norm.data.dropWhile (· == '\t')⟩ } :: parseGo rest (n + 1)

/-- `parse_template` of `src/crig/cli.py`, over the list of input lines. -/
def parse_template (lines : List String) : List Entry :=
  parseGo lines 1

/-- `f"Line {lineno}: invalid indentation jump → {name}"`. -/
def jumpMsg (e : Entry) : String :=
  "Line " ++ toString e.lineno ++ ": invalid indentation jump → " ++ e.name

/-- `f"Line {lineno}: файл не может иметь детей → {parent}"`. -/
def childMsg (lineno : Nat) (parent : String) : String :=
  "Line " ++ toString lineno ++ ": файл не может иметь детей → " ++ parent

/-- `f"Line {lineno}: duplicate entry at same level → {name}"`. -/
def dupMsg (e : Entry) : String :=
  "Line " ++ toString e.lineno ++ ": duplicate entry at same level → " ++ e.name

/-- The errors one iteration of the `validate_structure` loop
(`src/crig/cli.py`, lines 125-137) appends for entry `e`, in order: the
indentation-jump check, the file-with-children check (whose guard repeats
`level > len(stack)`), and the same-level duplicate check. -/
def stepErrors (e : Entry) (stack : List String) (seen : Nat → List String) :
    List String :=
  (if e.level > stack.length then [jumpMsg e] else [])
    ++ (if !stack.isEmpty && decide (e.level > stack.length) &&
          !endsWithSlash (stack.getLast?.getD "") then
          [childMsg e.lineno (stack.getLast?.getD "")]
        else [])
    ++ (if (seen e.level).contains e.name then [dupMsg e] else [])

/-- The loop of `validate_structure` (`src/crig/cli.py`): unlike the
clirig variant every entry updates `seen` and `stack`, and errors do not
short-circuit. -/
def validateGo : List Entry → List String → (Nat → List String) →
    List String → List String
  | [], _, _, errors => errors
  | e :: rest, stack, seen, errors =>
    validateGo rest (stack.take e.level ++ [e.name])
      (seenAdd seen e.level e.name) (errors ++ stepErrors e stack seen)

/-- `validate_structure` of `src/crig/cli.py` (it has no root check). -/
def validate_structure (entries : List Entry) : List String :=
  validateGo entries [] seenEmpty []

/-- The `stack` value after the `validate_structure` loop has processed a
list of entries. -/
def stackAfter : List Entry → List String → List String
  | [], stack => stack
  | e :: rest, stack => stackAfter rest (stack.take e.level ++ [e.name])

/-- The `seen` value after the `validate_structure` loop has processed a
list of entries. -/
def seenAfter : List Entry → (Nat → List String) → Nat → List String
  | [], seen => seen
  | e :: rest, seen => seenAfter rest (seenAdd seen e.level e.name)

/-- The path-building loop of `generate` (`src/crig/cli.py`, lines
207-223), identical stack discipline to the clirig one but with no
wrapper directory. -/
def generateGo (base : List String) : List Entry → List String →
    List (List String)
  | [], _ => []
  | e :: rest, stack =>
    let stack1 := stack.take e.level
    let path := base ++ stack1 ++ [rstripSlash e.name]
    let stack2 :=
      if endsWithSlash e.name then stack1 ++ [rstripSlash e.name] else stack1
    path :: generateGo base rest stack2

/-- Pure model of `generate` (`src/crig/cli.py`, lines 190-223): the
ordered list of filesystem paths it touches.  The paths hang directly off
`basePath`; there is no synthetic wrapper directory. -/
def generate_paths (entries : List Entry) (basePath : List String) :
    List (List String) :=
  generateGo basePath entries []

/-- `root_name = structure[0][2].rstrip("/") if structure else "project"`. -/
def root_name (entries : List Entry) : String :=
  match entries with
  | [] => "project"
  | e :: _ => rstripSlash e.name

end Crig

/-- The entry (if any) that clirig's `parse_template` keeps for raw line
`l` read at line number `n`: the level and bare name re-derived from the
normalized string exactly as the parser loop does. -/
def Clirig.keptEntry (n : Nat) (l : String) : Option Entry :=
  match Clirig.normalize_line l with
  | .error _ => none
  | .ok norm =>
    some ⟨n, (norm.data.takeWhile (· == '\t')).length,
      ⟨norm.data.dropWhile (· == '\t')⟩⟩

/-- The entry (if any) that crig's `parse_template` keeps for raw line
`l` read at line number `n` (crig additionally skips blank lines before
normalizing). -/
def Crig.keptEntry (n : Nat) (l : String) : Option Entry :=
  if pyStrip l.data = [] then none
  else
    let norm := Crig.normalize_line ⟨rstripNL l.data⟩
    if norm = "" then none
    else
      some ⟨n, (norm.data.takeWhile (· == '\t')).length,
        ⟨norm.data.dropWhile (· == '\t')⟩⟩

/-- No level is skipped: the first entry is at level 0 and each entry's
level is at most one more than its predecessor's.  This is the property
the crig validator's jump check enforces on accepted lists. -/
def levelsOkB : Nat → List Entry → Bool
  | _, [] => true
  | bound, e :: rest => decide (e.level ≤ bound) && levelsOkB (e.level + 1) rest

/-! ## General helper lemmas -/

theorem dropWhile_eq_self_of_all {p : Char → Bool} {l : List Char}
    (h : ∀ c ∈ l, p c = false) : l.dropWhile p = l := by
  cases l with
  | nil => rfl
  | cons a t =>
    rw [List.dropWhile_cons, if_neg]
    simp [h a (List.mem_cons_self a t)]

theorem takeWhile_eq_self_of_all {p : Char → Bool} {l : List Char}
    (h : ∀ c ∈ l, p c = true) : l.takeWhile p = l := by
  induction l with
  | nil => rfl
  | cons a t ih =>
    rw [List.takeWhile_cons, if_pos (h a (List.mem_cons_self a t))]
    rw [ih (fun c hc => h c (List.mem_cons_of_mem a hc))]

theorem pyStrip_eq_self_of_all {l : List Char}
    (h : ∀ c ∈ l, isPySpace c = false) : pyStrip l = l := by
  unfold pyStrip
  rw [dropWhile_eq_self_of_all h,
    dropWhile_eq_self_of_all (fun c hc => h c (List.mem_reverse.mp hc)),
    List.reverse_reverse]

theorem rstripNL_eq_self_of_all {l : List Char}
    (h : ∀ c ∈ l, (c == '\n') = false) : rstripNL l = l := by
  unfold rstripNL
  rw [dropWhile_eq_self_of_all (fun c hc => h c (List.mem_reverse.mp hc)),
    List.reverse_reverse]

theorem pyStrip_eq_nil_iff {l : List Char} :
    pyStrip l = [] ↔ ∀ c ∈ l, isPySpace c = true := by
  unfold pyStrip
  rw [List.reverse_eq_nil_iff, List.dropWhile_eq_nil_iff]
  constructor
  · intro h c hc
    rcases List.mem_append.mp
        ((List.takeWhile_append_dropWhile (p := isPySpace) (l := l)) ▸ hc) with h1 | h2
    · exact List.mem_takeWhile_imp h1
    · exact h c (List.mem_reverse.mpr h2)
  · intro h c hc
    exact h c ((List.dropWhile_sublist _).subset (List.mem_reverse.mp hc))

theorem stripTreeGlyphs_subset {l : List Char} :
    ∀ c ∈ stripTreeGlyphs l, c ∈ l := by
  intro c hc
  unfold stripTreeGlyphs at hc
  split at hc
  next c0 rest heq =>
    split at hc
    · have h1 : c ∈ rest := (List.dropWhile_sublist _).subset hc
      have h2 : c ∈ l.dropWhile isBarOrSpace := by
        rw [heq]; exact List.mem_cons_of_mem _ (List.mem_cons_of_mem _ (List.mem_cons_of_mem _ h1))
      exact (List.dropWhile_sublist _).subset h2
    · exact hc
  next => exact hc

/-- If the content computed by the shared normalization branch is nonempty,
the raw line is not whitespace-only (so the clirig blank-line guard does
not fire). -/
theorem pyStrip_ne_nil_of_content {raw : List Char}
    (h : (lineIndentContent raw).2 ≠ []) : pyStrip raw ≠ [] := by
  unfold lineIndentContent at h
  split at h
  · exact h
  · intro hraw
    apply h
    rw [pyStrip_eq_nil_iff] at hraw ⊢
    intro c hc
    exact hraw c (stripTreeGlyphs_subset c hc)

/-! ## C2: the file-cannot-have-children check never fires for a direct
child -/

/-- **C2** (code evaluated at the failing input): the template
`root/`, `⟨tab⟩f.txt`, `⟨tab⟩⟨tab⟩x` has the file `f.txt` immediately
followed by an entry exactly one level deeper, yet BOTH validators return
no errors at all: the guard of the "file cannot have children" message
(`level == len(stack)+1` in clirig, `level > len(stack)` in crig) can
only hold together with a skipped indentation level, never for a direct
child, because after an entry of level L the stack has length L+1. -/
theorem C2_file_child_no_error :
    Clirig.validate_structure [⟨1, 0, "root/"⟩, ⟨2, 1, "f.txt"⟩, ⟨3, 2, "x"⟩] = [] ∧
      Crig.validate_structure [⟨1, 0, "root/"⟩, ⟨2, 1, "f.txt"⟩, ⟨3, 2, "x"⟩] = [] := by
  exact ⟨rfl, rfl⟩

/-! ## C4: missing-root validation -/

/-- **C4** (counterexample): the crig validator has no root check at all;
on the empty entry list (zero level-0 entries) it returns no errors,
not the single "no root directory" error the claim demands. -/
theorem C4_no_root_counterexample : Crig.validate_structure [] = [] := rfl

/-- **C4** (amended): for the clirig validator the claim holds: an entry
list with zero level-0 entries yields exactly one rootedness error — the
"must contain at least one root directory" message when the list is
empty, and the "no root directory defined above" message naming the first
entry otherwise. -/
theorem C4_no_root_amended (entries : List Entry)
    (h : ∀ e ∈ entries, e.level ≠ 0) :
    Clirig.validate_structure entries =
      match entries with
      | [] => ["Template must contain at least one root directory (level 0)."]
      | e :: _ => [Clirig.noRootMsg e] := by
  cases entries with
  | nil => rfl
  | cons e rest =>
    have he : (e.level == 0) = false := by
      simpa using h e (List.mem_cons_self e rest)
    unfold Clirig.validate_structure Clirig.rootCheck
    rw [he]
    rfl

/-- Witness for C4: a singleton list at level 2 produces exactly the
rootedness error for its own line. -/
theorem C4_no_root_witness :
    Clirig.validate_structure [⟨3, 2, "x"⟩] =
      ["Line 3: entry 'x' has level 2 but no root directory defined above"] := by
  exact (C4_no_root_amended [⟨3, 2, "x"⟩] (by decide)).trans (by decide)

/-! ## C7: multi-root wrapper directory -/

theorem Clirig.generateGo_mem_pfx (base : List String) :
    ∀ (entries : List Entry) (stack : List String),
      ∀ p ∈ Clirig.generateGo base entries stack, base <+: p := by
  intro entries
  induction entries with
  | nil => intro stack p hp; simp [Clirig.generateGo] at hp
  | cons e rest ih =>
    intro stack p hp
    rw [Clirig.generateGo] at hp
    rcases List.mem_cons.mp hp with h | h
    · subst h
      exact ⟨_, (List.append_assoc base _ _).symm⟩
    · exact ih _ p h

/-- **C7** (amended): in the clirig implementation the claim holds — with
more than one level-0 root, every materialized path lies beneath the
synthetic `crig_root` wrapper under the destination root, and the first
root's name (trailing slashes stripped) is the reported project name.
The crig implementation has no wrapper at all (see the counterexample):
its roots are created directly under the destination root. -/
theorem C7_wrapper_amended (entries : List Entry) (base : List String)
    (h : 1 < ((entries.filter (fun e => e.level == 0)).map (·.name)).length) :
    (∀ p ∈ (Clirig.generate_plan entries base).1, base ++ ["crig_root"] <+: p) ∧
      (Clirig.generate_plan entries base).2 =
        rstripSlash (((entries.filter (fun e => e.level == 0)).map (·.name)).headD "") := by
  simp only [Clirig.generate_plan]
  rw [if_pos h]
  exact ⟨Clirig.generateGo_mem_pfx _ entries [], trivial⟩

/-- Witness for C7 at a concrete two-root template. -/
theorem C7_wrapper_witness :
    1 < ((([⟨1, 0, "a/"⟩, ⟨2, 0, "b/"⟩] :
          List Entry).filter (fun e => e.level == 0)).map (·.name)).length ∧
      ∀ p ∈ (Clirig.generate_plan [⟨1, 0, "a/"⟩, ⟨2, 0, "b/"⟩] ["dest"]).1,
        ["dest", "crig_root"] <+: p :=
  ⟨by decide, (C7_wrapper_amended [⟨1, 0, "a/"⟩, ⟨2, 0, "b/"⟩] ["dest"] (by decide)).1⟩

/-- **C7** (counterexample): the crig `generate` creates the two roots
`a/` and `b/` as direct children (siblings) of the destination root
`dest`, with no synthetic wrapper directory, refuting "the roots are
never created as direct siblings of the destination root" for that
implementation. -/
theorem C7_wrapper_counterexample :
    Crig.generate_paths [⟨1, 0, "a/"⟩, ⟨2, 0, "b/"⟩] ["dest"] =
      [["dest", "a"], ["dest", "b"]] := rfl

/-! ## C9: the validator filters nothing out of the entry list -/

theorem Clirig.renderLines_length :
    ∀ (entries : List Entry) (la : List Bool),
      (Clirig.renderLines entries la).length = entries.length := by
  intro entries
  induction entries with
  | nil => intro la; rfl
  | cons e rest ih => intro la; simp [Clirig.renderLines, ih]

theorem Clirig.generateGo_length (base : List String) :
    ∀ (entries : List Entry) (stack : List String),
      (Clirig.generateGo base entries stack).length = entries.length := by
  intro entries
  induction entries with
  | nil => intro stack; rfl
  | cons e rest ih => intro stack; simp [Clirig.generateGo, ih]

/-- **C9** (amended): the validator never edits the entry list — there is
no duplicate filtering anywhere: the renderer emits exactly one line per
parsed entry and the materializer ensures exactly one path per parsed
entry, duplicates included.  (The duplicate-drop path of the clirig
validator only skips its internal `seen`/ancestor-stack update; the list
itself is immutable and is passed unchanged to rendering and
materialization, as the counterexample shows on a concrete run.) -/
theorem C9_no_filter_amended (entries : List Entry) (base : List String)
    (la : List Bool) :
    ((Clirig.generate_plan entries base).1).length = entries.length ∧
      (Clirig.renderLines entries la).length = entries.length :=
  ⟨Clirig.generateGo_length _ entries [], Clirig.renderLines_length entries la⟩

/-- **C9** (counterexample to the duplicate-filtering clause): the
template `a/`, `⟨tab⟩x`, `⟨tab⟩x` contains a same-level duplicate; the
clirig validator accepts it with no errors (its duplicate path is the
silent drop), yet the dry-run pipeline still renders the duplicate entry
`x` twice — nothing was filtered out of the list between validation and
rendering. -/
theorem C9_no_filter_counterexample :
    Clirig.validate_structure [⟨1, 0, "a/"⟩, ⟨2, 1, "x"⟩, ⟨3, 1, "x"⟩] = [] ∧
      Clirig.dry_run ["a/", "\tx", "\tx"] =
        some "├── a/\n│   └── x\n│   └── x" := by
  exact ⟨rfl, rfl⟩

/-! ## Lemmas about the crig validator loop -/

theorem Crig.validateGo_acc (entries : List Entry) :
    ∀ (stack : List String) (seen : Nat → List String) (errs : List String),
      Crig.validateGo entries stack seen errs =
        errs ++ Crig.validateGo entries stack seen [] := by
  induction entries with
  | nil => intro stack seen errs; simp [Crig.validateGo]
  | cons e rest ih =>
    intro stack seen errs
    show Crig.validateGo rest (stack.take e.level ++ [e.name])
        (seenAdd seen e.level e.name) (errs ++ Crig.stepErrors e stack seen) =
      errs ++ Crig.validateGo rest (stack.take e.level ++ [e.name])
        (seenAdd seen e.level e.name) ([] ++ Crig.stepErrors e stack seen)
    rw [ih _ _ (errs ++ Crig.stepErrors e stack seen),
      ih _ _ ([] ++ Crig.stepErrors e stack seen)]
    simp [List.append_assoc]

theorem Crig.validateGo_split (xs ys : List Entry) :
    ∀ (stack : List String) (seen : Nat → List String),
      Crig.validateGo (xs ++ ys) stack seen [] =
        Crig.validateGo xs stack seen [] ++
          Crig.validateGo ys (Crig.stackAfter xs stack) (Crig.seenAfter xs seen) [] := by
  induction xs with
  | nil =>
    intro stack seen
    simp [Crig.validateGo, Crig.stackAfter, Crig.seenAfter]
  | cons e rest ih =>
    intro stack seen
    show Crig.validateGo (rest ++ ys) (stack.take e.level ++ [e.name])
        (seenAdd seen e.level e.name) ([] ++ Crig.stepErrors e stack seen) = _
    rw [Crig.validateGo_acc, ih]
    show _ = Crig.validateGo rest (stack.take e.level ++ [e.name])
        (seenAdd seen e.level e.name) ([] ++ Crig.stepErrors e stack seen) ++ _
    rw [Crig.validateGo_acc rest _ _ ([] ++ Crig.stepErrors e stack seen)]
    simp [List.append_assoc, Crig.stackAfter, Crig.seenAfter]

theorem Crig.seenAfter_mono (xs : List Entry) :
    ∀ (seen : Nat → List String) (l : Nat) (x : String),
      x ∈ seen l → x ∈ Crig.seenAfter xs seen l := by
  induction xs with
  | nil => intro seen l x hx; exact hx
  | cons e rest ih =>
    intro seen l x hx
    apply ih
    unfold seenAdd
    split
    · exact List.mem_cons_of_mem _ hx
    · exact hx

theorem Crig.mem_validateGo_cons_of_step {msg : String} (e : Entry)
    (rest : List Entry) (stack : List String) (seen : Nat → List String)
    (h : msg ∈ Crig.stepErrors e stack seen) :
    msg ∈ Crig.validateGo (e :: rest) stack seen [] := by
  show msg ∈ Crig.validateGo rest (stack.take e.level ++ [e.name])
    (seenAdd seen e.level e.name) ([] ++ Crig.stepErrors e stack seen)
  rw [Crig.validateGo_acc]
  exact List.mem_append_left _ (List.mem_append_right _ h)

theorem Crig.mem_validate_of_suffix {msg : String} (xs ys : List Entry)
    (h : msg ∈ Crig.validateGo ys (Crig.stackAfter xs []) (Crig.seenAfter xs seenEmpty) []) :
    msg ∈ Crig.validate_structure (xs ++ ys) := by
  unfold Crig.validate_structure
  rw [Crig.validateGo_split]
  exact List.mem_append_right _ h

/-! ## C3: duplicate detection is keyed by level alone -/

/-- **C3** (counterexample): with `r/` → `x/` → `f.py` and `y/` → `f.py`
the two `f.py` entries are at the same level but under DIFFERENT parents
(`x/` vs `y/`), yet the crig validator flags the second one as a
duplicate — its `seen` sets are keyed by level only, with no parent
context, refuting "the same name occurring at the same level under two
different parents is not flagged or dropped as a duplicate". -/
theorem C3_duplicate_parent_counterexample :
    Crig.validate_structure
        [⟨1, 0, "r/"⟩, ⟨2, 1, "x/"⟩, ⟨3, 2, "f.py"⟩, ⟨4, 1, "y/"⟩, ⟨5, 2, "f.py"⟩] =
      ["Line 5: duplicate entry at same level → f.py"] := rfl

/-- **C3** (amended): the validators key duplicates by level alone,
globally across the whole entry list: whenever any earlier entry has the
same `(level, name)` pair — under the same parent or not — the crig
validator reports a "duplicate entry at same level" error for the later
entry's line (and the clirig validator silently skips the later entry's
bookkeeping without reporting). -/
theorem C3_duplicate_level_amended (a : List Entry) (e1 : Entry)
    (b : List Entry) (e2 : Entry) (c : List Entry)
    (hlvl : e1.level = e2.level) (hname : e1.name = e2.name) :
    Crig.dupMsg e2 ∈ Crig.validate_structure (a ++ e1 :: (b ++ e2 :: c)) := by
  apply Crig.mem_validate_of_suffix a (e1 :: (b ++ e2 :: c))
  show Crig.dupMsg e2 ∈ Crig.validateGo (b ++ e2 :: c) _ _ ([] ++ _)
  rw [Crig.validateGo_acc, Crig.validateGo_split]
  apply List.mem_append_right
  apply List.mem_append_right
  apply Crig.mem_validateGo_cons_of_step
  have hmem : e2.name ∈
      Crig.seenAfter b
        (seenAdd (Crig.seenAfter a seenEmpty) e1.level e1.name) e2.level := by
    apply Crig.seenAfter_mono
    unfold seenAdd
    rw [← hlvl, ← hname]
    simp
  unfold Crig.stepErrors
  apply List.mem_append_right
  rw [if_pos]
  · exact List.mem_cons_self _ _
  · exact List.elem_iff.mpr hmem

/-- Witness for C3 at the concrete different-parents template. -/
theorem C3_duplicate_level_witness :
    Crig.dupMsg ⟨5, 2, "f.py"⟩ ∈
      Crig.validate_structure
        [⟨1, 0, "r/"⟩, ⟨2, 1, "x/"⟩, ⟨3, 2, "f.py"⟩, ⟨4, 1, "y/"⟩, ⟨5, 2, "f.py"⟩] :=
  C3_duplicate_level_amended [⟨1, 0, "r/"⟩, ⟨2, 1, "x/"⟩] ⟨3, 2, "f.py"⟩
    [⟨4, 1, "y/"⟩] ⟨5, 2, "f.py"⟩ [] rfl rfl

/-! ## C5: invalid indentation jumps -/

theorem Crig.stackAfter_length_le (xs : List Entry) :
    ∀ (stack : List String) (B : Nat), stack.length ≤ B →
      (∀ e ∈ xs, e.level + 1 ≤ B) → (Crig.stackAfter xs stack).length ≤ B := by
  induction xs with
  | nil => intro stack B h _; exact h
  | cons e rest ih =>
    intro stack B hs hx
    show (Crig.stackAfter rest (stack.take e.level ++ [e.name])).length ≤ B
    apply ih
    · have h1 := hx e (List.mem_cons_self e rest)
      simp [List.length_take]
      omega
    · intro x hxx
      exact hx x (List.mem_cons_of_mem e hxx)

/-- **C5** (amended): for the crig validator the claim holds, reading "no
prior entry reaching level L−1" as: every earlier entry has level at most
L−2.  Such an entry always receives the "invalid indentation jump" error
carrying its own line number and name, because the reconstructed ancestor
stack can never grow beyond one more than the levels seen so far.  The
clirig validator, whose jump guard is `level > len(stack) + 1`, misses
single-level skips entirely (see the counterexample) and reports a
different "no root directory defined above" error for entries before the
first root. -/
theorem C5_jump_amended (a : List Entry) (e : Entry) (b : List Entry)
    (hpos : 0 < e.level) (hprev : ∀ x ∈ a, x.level + 2 ≤ e.level) :
    Crig.jumpMsg e ∈ Crig.validate_structure (a ++ e :: b) := by
  apply Crig.mem_validate_of_suffix a (e :: b)
  apply Crig.mem_validateGo_cons_of_step
  have hlen : (Crig.stackAfter a []).length < e.level := by
    have h1 : (Crig.stackAfter a []).length ≤ e.level - 1 := by
      apply Crig.stackAfter_length_le a [] (e.level - 1) (by simp)
      intro x hx
      have := hprev x hx
      omega
    omega
  unfold Crig.stepErrors
  apply List.mem_append_left
  apply List.mem_append_left
  rw [if_pos hlen]
  exact List.mem_cons_self _ _

/-- **C5** (counterexample): `a/` followed by a level-2 entry skips level
1 — no prior entry reaches level 1 — yet the clirig validator returns no
errors at all (its jump guard `level > len(stack) + 1` evaluates to
`2 > 2`), instead of the "invalid indentation jump" error for line 2 the
claim demands. -/
theorem C5_jump_counterexample :
    Clirig.validate_structure [⟨1, 0, "a/"⟩, ⟨2, 2, "x"⟩] = [] := rfl

/-- Witness for C5: the crig validator does flag the same input. -/
theorem C5_jump_witness :
    Crig.jumpMsg ⟨2, 2, "x"⟩ ∈
      Crig.validate_structure [⟨1, 0, "a/"⟩, ⟨2, 2, "x"⟩] :=
  C5_jump_amended [⟨1, 0, "a/"⟩] ⟨2, 2, "x"⟩ [] (by decide) (by decide)

/-! ## C8: the parser as an order-preserving, line-numbered filterMap -/

theorem Clirig.parseGo_eq (lines : List String) :
    ∀ n, Clirig.parseGo lines n =
      (lines.enumFrom n).filterMap (fun p => Clirig.keptEntry p.1 p.2) := by
  induction lines with
  | nil => intro n; rfl
  | cons l rest ih =>
    intro n
    cases h : Clirig.normalize_line l with
    | error r => simp [Clirig.parseGo, Clirig.keptEntry, List.enumFrom, h, ih]
    | ok norm => simp [Clirig.parseGo, Clirig.keptEntry, List.enumFrom, h, ih]

theorem Crig.crigParseGo_eq (lines : List String) :
    ∀ n, Crig.parseGo lines n =
      (lines.enumFrom n).filterMap (fun p => Crig.keptEntry p.1 p.2) := by
  induction lines with
  | nil => intro n; rfl
  | cons l rest ih =>
    intro n
    by_cases hb : pyStrip l.data = []
    · simp [Crig.parseGo, Crig.keptEntry, List.enumFrom, hb, ih]
    · by_cases hn : Crig.normalize_line ⟨rstripNL l.data⟩ = ""
      · simp [Crig.parseGo, Crig.keptEntry, List.enumFrom, hb, hn, ih]
      · simp [Crig.parseGo, Crig.keptEntry, List.enumFrom, hb, hn, ih]

theorem Clirig.parseGo_lineno_le (lines : List String) :
    ∀ n, ∀ e ∈ Clirig.parseGo lines n, n ≤ e.lineno := by
  induction lines with
  | nil => intro n e he; simp [Clirig.parseGo] at he
  | cons l rest ih =>
    intro n e he
    cases h : Clirig.normalize_line l with
    | error r =>
      rw [Clirig.parseGo, h] at he
      have := ih (n + 1) e he
      omega
    | ok norm =>
      rw [Clirig.parseGo, h] at he
      rcases List.mem_cons.mp he with h1 | h1
      · subst h1; exact Nat.le_refl n
      · have := ih (n + 1) e h1
        omega

theorem Crig.crigParseGo_lineno_le (lines : List String) :
    ∀ n, ∀ e ∈ Crig.parseGo lines n, n ≤ e.lineno := by
  induction lines with
  | nil => intro n e he; simp [Crig.parseGo] at he
  | cons l rest ih =>
    intro n e he
    by_cases hb : pyStrip l.data = []
    · rw [Crig.parseGo, if_pos hb] at he
      have := ih (n + 1) e he
      omega
    · by_cases hn : Crig.normalize_line ⟨rstripNL l.data⟩ = ""
      · rw [Crig.parseGo, if_neg hb] at he
        simp only [hn, if_pos] at he
        have := ih (n + 1) e (by simpa using he)
        omega
      · rw [Crig.parseGo, if_neg hb] at he
        simp only [if_neg hn] at he
        rcases List.mem_cons.mp he with h1 | h1
        · subst h1; exact Nat.le_refl n
        · have := ih (n + 1) e h1
          omega

theorem Clirig.parseGo_pairwise (lines : List String) :
    ∀ n, List.Pairwise (fun x y => x.lineno < y.lineno) (Clirig.parseGo lines n) := by
  induction lines with
  | nil => intro n; simp [Clirig.parseGo]
  | cons l rest ih =>
    intro n
    cases h : Clirig.normalize_line l with
    | error r =>
      rw [Clirig.parseGo, h]
      exact ih (n + 1)
    | ok norm =>
      rw [Clirig.parseGo, h]
      refine List.pairwise_cons.mpr ⟨?_, ih (n + 1)⟩
      intro e he
      have := Clirig.parseGo_lineno_le rest (n + 1) e he
      show n < e.lineno
      omega

theorem Crig.crigParseGo_pairwise (lines : List String) :
    ∀ n, List.Pairwise (fun x y => x.lineno < y.lineno) (Crig.parseGo lines n) := by
  induction lines with
  | nil => intro n; simp [Crig.parseGo]
  | cons l rest ih =>
    intro n
    by_cases hb : pyStrip l.data = []
    · rw [Crig.parseGo, if_pos hb]
      exact ih (n + 1)
    · by_cases hn : Crig.normalize_line ⟨rstripNL l.data⟩ = ""
      · rw [Crig.parseGo, if_neg hb]
        simpa [hn] using ih (n + 1)
      · rw [Crig.parseGo, if_neg hb]
        simp only [if_neg hn]
        refine List.pairwise_cons.mpr ⟨?_, ih (n + 1)⟩
        intro e he
        have := Crig.crigParseGo_lineno_le rest (n + 1) e he
        show n < e.lineno
        omega

theorem Clirig.parseGo_nil_of_rejected (lines : List String)
    (h : ∀ l ∈ lines, Clirig.keptEntry 1 l = none) :
    ∀ n, Clirig.parseGo lines n = [] := by
  induction lines with
  | nil => intro n; rfl
  | cons l rest ih =>
    intro n
    have h1 := h l (List.mem_cons_self l rest)
    cases hn : Clirig.normalize_line l with
    | error r =>
      rw [Clirig.parseGo, hn]
      exact ih (fun x hx => h x (List.mem_cons_of_mem l hx)) (n + 1)
    | ok norm =>
      unfold Clirig.keptEntry at h1
      rw [hn] at h1
      simp at h1

theorem Crig.crigParseGo_nil_of_rejected (lines : List String)
    (h : ∀ l ∈ lines, Crig.keptEntry 1 l = none) :
    ∀ n, Crig.parseGo lines n = [] := by
  induction lines with
  | nil => intro n; rfl
  | cons l rest ih =>
    intro n
    have h1 := h l (List.mem_cons_self l rest)
    have hrest := fun x hx => h x (List.mem_cons_of_mem l hx)
    by_cases hb : pyStrip l.data = []
    · rw [Crig.parseGo, if_pos hb]
      exact ih hrest (n + 1)
    · by_cases hn : Crig.normalize_line ⟨rstripNL l.data⟩ = ""
      · rw [Crig.parseGo, if_neg hb]
        simpa [hn] using ih hrest (n + 1)
      · unfold Crig.keptEntry at h1
        rw [if_neg hb] at h1
        simp only [if_neg hn] at h1
        simp at h1

/-- **C8**: both parsers visit each line exactly once in input order: the
output is exactly the filterMap of the per-line kept entry over the lines
enumerated with 1-based line numbers (so every kept entry is tagged with
its original line number, and blank or rejected lines contribute no entry
while still advancing the count); line numbers are strictly increasing
(order preserved, no line revisited); and an empty or fully-rejected
input parses to the empty list — the parsers are total, no error is
raised. -/
theorem C8_parser_order (lines : List String) :
    Clirig.parse_template lines =
        (lines.enumFrom 1).filterMap (fun p => Clirig.keptEntry p.1 p.2) ∧
      List.Pairwise (fun x y => x.lineno < y.lineno)
        (Clirig.parse_template lines) ∧
      ((∀ l ∈ lines, Clirig.keptEntry 1 l = none) →
        Clirig.parse_template lines = []) ∧
      Crig.parse_template lines =
        (lines.enumFrom 1).filterMap (fun p => Crig.keptEntry p.1 p.2) ∧
      List.Pairwise (fun x y => x.lineno < y.lineno)
        (Crig.parse_template lines) ∧
      ((∀ l ∈ lines, Crig.keptEntry 1 l = none) →
        Crig.parse_template lines = []) :=
  ⟨Clirig.parseGo_eq lines 1, Clirig.parseGo_pairwise lines 1,
    fun h => Clirig.parseGo_nil_of_rejected lines h 1,
    Crig.crigParseGo_eq lines 1, Crig.crigParseGo_pairwise lines 1,
    fun h => Crig.crigParseGo_nil_of_rejected lines h 1⟩

/-- Witness for C8 on a concrete fully-rejected input (a comment line and
a whitespace-only line). -/
theorem C8_parser_order_witness :
    (∀ l ∈ ["#x", "   "], Clirig.keptEntry 1 l = none) ∧
      (∀ l ∈ ["#x", "   "], Crig.keptEntry 1 l = none) ∧
      Clirig.parse_template ["#x", "   "] = [] ∧
      Crig.parse_template ["#x", "   "] = [] :=
  ⟨by decide, by decide,
    (C8_parser_order ["#x", "   "]).2.2.1 (by decide),
    (C8_parser_order ["#x", "   "]).2.2.2.2.2 (by decide)⟩

/-! ## C6: comment-like first tokens are always dropped -/

/-- **C6**: whatever the indentation, any line whose first
whitespace-delimited token (after indent and tree-glyph stripping) starts
with `#`, `!`, `?`, `*`, `(`, `-`, `/` or `—` is dropped by both
normalizers — clirig reports the "invalid name prefix" reason and crig
returns the empty string.  (A token starting with `//` starts with `/`,
so the claim's ninth prefix is subsumed.) -/
theorem C6_comment_prefix_drop (line : String) (c : Char)
    (hc : (firstTok (lineIndentContent (rstripNL line.data)).2).head? = some c)
    (hmem : c ∈ ['#', '!', '?', '*', '(', '-', '/', '—']) :
    Clirig.normalize_line line = .error "invalid name prefix" ∧
      Crig.normalize_line line = "" := by
  have hcne : (lineIndentContent (rstripNL line.data)).2 ≠ [] := by
    intro h
    rw [h] at hc
    simp [firstTok] at hc
  have hraw : pyStrip (rstripNL line.data) ≠ [] := pyStrip_ne_nil_of_content hcne
  have hd1 : (c == '/' || c == '-' || c == '—' || c == '!' || c == '?' ||
      c == '#' || c == '*' || c == '(') = true := by
    fin_cases hmem <;> decide
  have hd2 : (c == '(' || c == '[' || c == '-' || c == '/' || c == '—' ||
      c == '!' || c == '?' || c == '#' || c == '*') = true := by
    fin_cases hmem <;> decide
  have hf1 : Clirig.forbiddenStart
      (firstTok (lineIndentContent (rstripNL line.data)).2) = true := by
    unfold Clirig.forbiddenStart
    rw [hc]
    simp [hd1]
  have hf2 : Crig.invalidStart
      (firstTok (lineIndentContent (rstripNL line.data)).2) = true := by
    unfold Crig.invalidStart
    rw [hc]
    simp [hd2]
  constructor
  · simp only [Clirig.normalize_line]
    rw [if_neg hraw, if_neg hcne, if_pos hf1]
  · simp only [Crig.normalize_line]
    rw [if_neg hcne, if_pos hf2]

/-- Witness for C6 at a tab-indented comment line. -/
theorem C6_comment_prefix_drop_witness :
    (firstTok (lineIndentContent
        (rstripNL ("\t#comment stuff" : String).data)).2).head? = some '#' ∧
      Clirig.normalize_line "\t#comment stuff" = .error "invalid name prefix" ∧
      Crig.normalize_line "\t#comment stuff" = "" :=
  ⟨by decide,
    (C6_comment_prefix_drop "\t#comment stuff" '#' (by decide) (by decide)).1,
    (C6_comment_prefix_drop "\t#comment stuff" '#' (by decide) (by decide)).2⟩

/-! ## C10: only the first token is checked and kept -/

/-- **C10**: for any line, acceptance and the resulting entry name depend
only on the first whitespace-delimited token of the stripped content:
when that token passes the prefix and character-set checks, both
normalizers accept the line with exactly that token as the name — no
matter what follows the first whitespace, which is silently discarded and
never checked against the allowed-character set and can never cause the
line to be dropped. -/
theorem C10_first_token_name (line : String) (tok : List Char)
    (htok : firstTok (lineIndentContent (rstripNL line.data)).2 = tok)
    (hne : tok ≠ [])
    (hf1 : Clirig.forbiddenStart tok = false)
    (ha1 : tok.all Clirig.allowedChar = true)
    (hf2 : Crig.invalidStart tok = false)
    (ha2 : tok.all Crig.allowedChar = true) :
    Clirig.normalize_line line =
        .ok ⟨List.replicate (lineIndentContent (rstripNL line.data)).1 '\t' ++ tok⟩ ∧
      Crig.normalize_line line =
        ⟨List.replicate (lineIndentContent (rstripNL line.data)).1 '\t' ++ tok⟩ := by
  have hcne : (lineIndentContent (rstripNL line.data)).2 ≠ [] := by
    intro h
    apply hne
    rw [← htok, h]
    rfl
  have hraw : pyStrip (rstripNL line.data) ≠ [] := pyStrip_ne_nil_of_content hcne
  constructor
  · simp only [Clirig.normalize_line]
    rw [if_neg hraw, if_neg hcne, htok, if_neg (by simp [hf1]),
      if_neg (by simp [ha1])]
  · simp only [Crig.normalize_line]
    rw [if_neg hcne, htok, if_neg (by simp [hf2]), if_neg (by simp [ha2])]

/-- Witness for C10: the spec's own example line `src/ generated sources`
normalizes to the single name `src/`; the tail "generated sources" is
discarded. -/
theorem C10_first_token_name_witness :
    firstTok (lineIndentContent
        (rstripNL ("src/ generated sources" : String).data)).2 = "src/".data ∧
      Clirig.normalize_line "src/ generated sources" = .ok "src/" ∧
      Crig.normalize_line "src/ generated sources" = "src/" := by
  have h := C10_first_token_name "src/ generated sources" "src/".data
    (by decide) (by decide) (by decide) (by decide) (by decide) (by decide)
  exact ⟨by decide, h.1, h.2⟩

/-! ## C1: rendering then re-parsing -/

theorem string_data_append (a b : String) : (a ++ b).data = a.data ++ b.data := rfl

theorem string_join_data (l : List String) :
    (String.join l).data = (l.map String.data).flatten := by
  have aux : ∀ (l : List String) (acc : String),
      (l.foldl (fun r s => r ++ s) acc).data = acc.data ++ (l.map String.data).flatten := by
    intro l
    induction l with
    | nil => intro acc; simp
    | cons x rest ih =>
      intro acc
      simp only [List.foldl, List.map_cons, List.flatten_cons]
      rw [ih, string_data_append, List.append_assoc]
  simpa [String.join] using aux l ""

theorem validNameB_spec {s : String} (h : Clirig.validNameB s = true) :
    s.data ≠ [] ∧ (∀ c ∈ s.data, Clirig.allowedChar c = true) ∧
      Clirig.forbiddenStart s.data = false := by
  simp only [Clirig.validNameB, Bool.and_eq_true, Bool.not_eq_true'] at h
  refine ⟨?_, ?_, h.2⟩
  · intro hnil
    rw [hnil] at h
    simp at h
  · intro c hc
    exact List.all_eq_true.mp h.1.2 c hc

theorem allowedChar_ne {c : Char} (h : Clirig.allowedChar c = true) :
    isPySpace c = false ∧ (c == '\n') = false ∧ (c == '\t') = false ∧
      isBarOrSpace c = false := by
  have hsp : isPySpace c = false := by
    by_contra hc
    rw [Bool.not_eq_false] at hc
    simp only [isPySpace, Bool.or_eq_true, beq_iff_eq] at hc
    rcases hc with ((((rfl | rfl) | rfl) | rfl) | rfl) | rfl <;>
      exact absurd h (by decide)
  refine ⟨hsp, ?_, ?_, ?_⟩
  · by_contra hc
    rw [Bool.not_eq_false, beq_iff_eq] at hc
    subst hc
    exact absurd h (by decide)
  · by_contra hc
    rw [Bool.not_eq_false, beq_iff_eq] at hc
    subst hc
    exact absurd h (by decide)
  · simp only [isBarOrSpace, Bool.or_eq_false_iff]
    refine ⟨?_, hsp⟩
    by_contra hc
    rw [Bool.not_eq_false, beq_iff_eq] at hc
    subst hc
    exact absurd h (by decide)

theorem validName_head_not_tab {s : String} (h : Clirig.validNameB s = true) :
    s.data.head? ≠ some '\t' := by
  obtain ⟨hne, hall, -⟩ := validNameB_spec h
  cases hd : s.data with
  | nil => simp
  | cons a t =>
    intro hc
    have ha : a = '\t' := by simpa using hc
    subst ha
    have := hall '\t' (hd ▸ List.mem_cons_self '\t' t)
    exact absurd this (by decide)

theorem countChunks_chunks (bs : List Bool) (tail : List Char) :
    countChunks ((bs.map fun b => if b then "    ".data else "│   ".data).flatten ++ tail) =
      bs.length + countChunks tail := by
  induction bs with
  | nil => simp
  | cons b rest ih =>
    cases b
    · show countChunks (("│   ".data ++ (List.map _ rest).flatten) ++ tail) = _
      rw [List.append_assoc]
      show countChunks ('│' :: ' ' :: ' ' :: ' ' ::
        ((List.map _ rest).flatten ++ tail)) = _
      show (if isTreeChunk '│' ' ' ' ' ' ' then
        countChunks ((List.map _ rest).flatten ++ tail) + 1 else 0) = _
      rw [if_pos (by decide), ih]
      simp only [List.length_cons]
      omega
    · show countChunks (("    ".data ++ (List.map _ rest).flatten) ++ tail) = _
      rw [List.append_assoc]
      show countChunks (' ' :: ' ' :: ' ' :: ' ' ::
        ((List.map _ rest).flatten ++ tail)) = _
      show (if isTreeChunk ' ' ' ' ' ' ' ' then
        countChunks ((List.map _ rest).flatten ++ tail) + 1 else 0) = _
      rw [if_pos (by decide), ih]
      simp only [List.length_cons]
      omega

theorem dropWhile_bar_chunks (bs : List Bool) (tail : List Char) :
    ((bs.map fun b => if b then "    ".data else "│   ".data).flatten ++ tail).dropWhile
        isBarOrSpace =
      tail.dropWhile isBarOrSpace := by
  induction bs with
  | nil => simp
  | cons b rest ih =>
    cases b
    · show (("│   ".data ++ (List.map _ rest).flatten) ++ tail).dropWhile isBarOrSpace = _
      rw [List.append_assoc]
      show (('│' :: ' ' :: ' ' :: ' ' ::
        ((List.map _ rest).flatten ++ tail)).dropWhile isBarOrSpace) = _
      rw [List.dropWhile_cons, if_pos (by decide), List.dropWhile_cons,
        if_pos (by decide), List.dropWhile_cons, if_pos (by decide),
        List.dropWhile_cons, if_pos (by decide)]
      exact ih
    · show (("    ".data ++ (List.map _ rest).flatten) ++ tail).dropWhile isBarOrSpace = _
      rw [List.append_assoc]
      show ((' ' :: ' ' :: ' ' :: ' ' ::
        ((List.map _ rest).flatten ++ tail)).dropWhile isBarOrSpace) = _
      rw [List.dropWhile_cons, if_pos (by decide), List.dropWhile_cons,
        if_pos (by decide), List.dropWhile_cons, if_pos (by decide),
        List.dropWhile_cons, if_pos (by decide)]
      exact ih

theorem chunk_chars {bs : List Bool} {c : Char}
    (hc : c ∈ (bs.map fun b => if b then "    ".data else "│   ".data).flatten) :
    c = ' ' ∨ c = '│' := by
  rw [List.mem_flatten] at hc
  obtain ⟨l, hl, hcl⟩ := hc
  rw [List.mem_map] at hl
  obtain ⟨b, -, rfl⟩ := hl
  cases b with
  | false =>
    have : ("│   ".data) = ['│', ' ', ' ', ' '] := rfl
    rw [if_neg (by simp)] at hcl
    rw [this] at hcl
    simp at hcl
    tauto
  | true =>
    have : ("    ".data) = [' ', ' ', ' ', ' '] := rfl
    rw [if_pos rfl] at hcl
    rw [this] at hcl
    simp at hcl
    tauto

theorem normalize_rendered_aux (s : String) (nm : String)
    (hne : nm.data ≠ []) (hall : ∀ c ∈ nm.data, Clirig.allowedChar c = true)
    (hforb : Clirig.forbiddenStart nm.data = false)
    (c0 : Char) (hc0 : c0 = '├' ∨ c0 = '└') (bs : List Bool)
    (hs : s.data =
      (bs.map fun b => if b then "    ".data else "│   ".data).flatten ++
        (c0 :: '─' :: '─' :: ' ' :: nm.data)) :
    Clirig.normalize_line s = .ok ⟨List.replicate bs.length '\t' ++ nm.data⟩ := by
  have hc0' : (c0 == '│' || c0 == ' ') = false := by
    rcases hc0 with rfl | rfl <;> decide
  have hc0bar : isBarOrSpace c0 = false := by
    rcases hc0 with rfl | rfl <;> decide
  -- every character of the line, by region
  have hchars : ∀ c ∈ s.data, (c = ' ' ∨ c = '│') ∨
      c ∈ [c0, '─', '─', ' '] ∨ c ∈ nm.data := by
    intro c hc
    rw [hs] at hc
    rcases List.mem_append.mp hc with h1 | h1
    · exact Or.inl (chunk_chars h1)
    · rcases List.mem_cons.mp h1 with h2 | h2
      · exact Or.inr (Or.inl (by simp [h2]))
      · rcases List.mem_cons.mp h2 with h3 | h3
        · exact Or.inr (Or.inl (by simp [h3]))
        · rcases List.mem_cons.mp h3 with h4 | h4
          · exact Or.inr (Or.inl (by simp [h4]))
          · rcases List.mem_cons.mp h4 with h5 | h5
            · exact Or.inr (Or.inl (by simp [h5]))
            · exact Or.inr (Or.inr h5)
  -- no newline anywhere, so rstrip("\n") is the identity
  have hnl : rstripNL s.data = s.data := by
    apply rstripNL_eq_self_of_all
    intro c hc
    rcases hchars c hc with (rfl | rfl) | h | h
    · decide
    · decide
    · rcases hc0 with rfl | rfl <;> fin_cases h <;> decide
    · exact (allowedChar_ne (hall c h)).2.1
  -- the line is not blank: the name's head is a non-whitespace character
  have hblank : pyStrip s.data ≠ [] := by
    intro hcon
    rw [pyStrip_eq_nil_iff] at hcon
    obtain ⟨a, t, hat⟩ := List.exists_cons_of_ne_nil hne
    have ha : a ∈ s.data := by
      rw [hs, hat]
      simp
    have := hcon a ha
    rw [(allowedChar_ne (hall a (hat ▸ List.mem_cons_self a t))).1] at this
    exact absurd this (by simp)
  -- the line does not start with a tab
  have hhead : ¬s.data.head? = some '\t' := by
    rw [hs]
    cases bs with
    | nil =>
      intro hc
      simp at hc
      rcases hc0 with rfl | rfl <;> simp at hc
    | cons b rest =>
      cases b
      · intro hc
        have heq : (("│   ".data ++
              (List.map (fun b => if b then "    ".data else "│   ".data)
                rest).flatten) ++
            (c0 :: '─' :: '─' :: ' ' :: nm.data)).head? = some '│' := rfl
        rw [show (List.map (fun b => if b then "    ".data else "│   ".data)
            (false :: rest)).flatten =
          "│   ".data ++ (List.map (fun b =>
            if b then "    ".data else "│   ".data) rest).flatten from rfl] at hc
        rw [heq] at hc
        simp at hc
      · intro hc
        have heq : (("    ".data ++
              (List.map (fun b => if b then "    ".data else "│   ".data)
                rest).flatten) ++
            (c0 :: '─' :: '─' :: ' ' :: nm.data)).head? = some ' ' := rfl
        rw [show (List.map (fun b => if b then "    ".data else "│   ".data)
            (true :: rest)).flatten =
          "    ".data ++ (List.map (fun b =>
            if b then "    ".data else "│   ".data) rest).flatten from rfl] at hc
        rw [heq] at hc
        simp at hc
  -- the chunk scan counts exactly the prefix chunks
  have hcount : countChunks s.data = bs.length := by
    rw [hs, countChunks_chunks]
    have : countChunks (c0 :: '─' :: '─' :: ' ' :: nm.data) =
        (if isTreeChunk c0 '─' '─' ' ' then countChunks nm.data + 1 else 0) := rfl
    rw [this, if_neg (by simp [isTreeChunk, hc0'])]
    rfl
  -- the tree-glyph prefix strips down to exactly the name
  have hstripg : stripTreeGlyphs s.data = nm.data := by
    unfold stripTreeGlyphs
    rw [hs, dropWhile_bar_chunks]
    rw [List.dropWhile_cons, if_neg (by simp [hc0bar])]
    show (if (c0 == '├' || c0 == '└') = true then
      (' ' :: nm.data).dropWhile isPySpace else _) = nm.data
    rw [if_pos (by rcases hc0 with rfl | rfl <;> decide)]
    rw [List.dropWhile_cons, if_pos (by decide)]
    exact dropWhile_eq_self_of_all fun c hc => (allowedChar_ne (hall c hc)).1
  have hic : lineIndentContent s.data = (bs.length, nm.data) := by
    unfold lineIndentContent
    rw [if_neg hhead, hcount, hstripg,
      pyStrip_eq_self_of_all fun c hc => (allowedChar_ne (hall c hc)).1]
  have htok : firstTok nm.data = nm.data := by
    unfold firstTok
    rw [dropWhile_eq_self_of_all fun c hc => (allowedChar_ne (hall c hc)).1]
    apply takeWhile_eq_self_of_all
    intro c hc
    rw [(allowedChar_ne (hall c hc)).1]
    rfl
  simp only [Clirig.normalize_line]
  rw [hnl, if_neg hblank, hic]
  show (if nm.data = [] then _ else _) = _
  rw [if_neg hne]
  show (if Clirig.forbiddenStart (firstTok nm.data) then _
    else if !(firstTok nm.data).all Clirig.allowedChar then _ else _) = _
  rw [htok, if_neg (by simp [hforb]),
    if_neg (by simp [List.all_eq_true.mpr hall])]

theorem string_eta (s : String) : (⟨s.data⟩ : String) = s := rfl

theorem normalize_rendered (nm : String) (hnm : Clirig.validNameB nm = true)
    (isLast : Bool) (bs : List Bool) :
    Clirig.normalize_line
        (String.join (bs.map fun b => if b then "    " else "│   ") ++
          ((if isLast then "└── " else "├── ") ++ nm)) =
      .ok ⟨List.replicate bs.length '\t' ++ nm.data⟩ := by
  obtain ⟨hne, hall, hforb⟩ := validNameB_spec hnm
  cases isLast
  · apply normalize_rendered_aux _ nm hne hall hforb '├' (Or.inl rfl) bs
    rw [string_data_append, string_data_append, string_join_data, List.map_map]
    congr 1
    exact congrArg List.flatten
      (List.map_congr_left fun b _ => by cases b <;> rfl)
  · apply normalize_rendered_aux _ nm hne hall hforb '└' (Or.inr rfl) bs
    rw [string_data_append, string_data_append, string_join_data, List.map_map]
    congr 1
    exact congrArg List.flatten
      (List.map_congr_left fun b _ => by cases b <;> rfl)

theorem takeWhile_tabs (k : Nat) (l : List Char) (hl : l.head? ≠ some '\t') :
    (List.replicate k '\t' ++ l).takeWhile (· == '\t') = List.replicate k '\t' := by
  induction k with
  | zero =>
    show l.takeWhile (· == '\t') = []
    cases l with
    | nil => rfl
    | cons a t =>
      rw [List.takeWhile_cons, if_neg]
      intro hab
      rw [beq_iff_eq] at hab
      exact hl (by simp [hab])
  | succ k ih =>
    show ('\t' :: (List.replicate k '\t' ++ l)).takeWhile (· == '\t') =
      '\t' :: List.replicate k '\t'
    rw [List.takeWhile_cons, if_pos (by decide), ih]

theorem dropWhile_tabs (k : Nat) (l : List Char) (hl : l.head? ≠ some '\t') :
    (List.replicate k '\t' ++ l).dropWhile (· == '\t') = l := by
  induction k with
  | zero =>
    show l.dropWhile (· == '\t') = l
    cases l with
    | nil => rfl
    | cons a t =>
      rw [List.dropWhile_cons, if_neg]
      intro hab
      rw [beq_iff_eq] at hab
      exact hl (by simp [hab])
  | succ k ih =>
    show ('\t' :: (List.replicate k '\t' ++ l)).dropWhile (· == '\t') = l
    rw [List.dropWhile_cons, if_pos (by decide), ih]

theorem Clirig.parseGo_cons_ok (l : String) (rest : List String) (n : Nat)
    (normData : List Char) (h : Clirig.normalize_line l = .ok ⟨normData⟩) :
    Clirig.parseGo (l :: rest) n =
      ⟨n, (normData.takeWhile (· == '\t')).length,
          ⟨normData.dropWhile (· == '\t')⟩⟩ ::
        Clirig.parseGo rest (n + 1) := by
  simp only [Clirig.parseGo, h]

theorem Crig.validateGo_nil_levels (entries : List Entry) :
    ∀ (stack : List String) (seen : Nat → List String),
      Crig.validateGo entries stack seen [] = [] →
      levelsOkB stack.length entries = true := by
  induction entries with
  | nil => intro stack seen _; rfl
  | cons e rest ih =>
    intro stack seen h
    rw [show Crig.validateGo (e :: rest) stack seen [] =
        Crig.validateGo rest (stack.take e.level ++ [e.name])
          (seenAdd seen e.level e.name) ([] ++ Crig.stepErrors e stack seen)
        from rfl, Crig.validateGo_acc] at h
    have hsplit := List.append_eq_nil.mp h
    have hstep : Crig.stepErrors e stack seen = [] := by
      simpa using hsplit.1
    have hrest : Crig.validateGo rest (stack.take e.level ++ [e.name])
        (seenAdd seen e.level e.name) [] = [] := hsplit.2
    have hlvl : e.level ≤ stack.length := by
      by_contra hgt
      push_neg at hgt
      unfold Crig.stepErrors at hstep
      rw [if_pos hgt] at hstep
      simp at hstep
    have hrec := ih _ _ hrest
    have hlen : (stack.take e.level ++ [e.name]).length = e.level + 1 := by
      simp [List.length_take]
      omega
    rw [hlen] at hrec
    simp [levelsOkB, hlvl, hrec]

theorem renderParse (s : List Entry) :
    ∀ (la : List Bool) (n : Nat), levelsOkB la.length s = true →
      (∀ e ∈ s, Clirig.validNameB e.name = true) →
      (Clirig.parseGo (Clirig.renderLines s la) n).map levelName =
        s.map levelName := by
  induction s with
  | nil => intro la n _ _; rfl
  | cons e rest ih =>
    intro la n hlv hnm
    have hcons : (decide (e.level ≤ la.length) &&
        levelsOkB (e.level + 1) rest) = true := hlv
    rw [Bool.and_eq_true, decide_eq_true_eq] at hcons
    obtain ⟨h1, h2⟩ := hcons
    have hlen1 : (if la.length > e.level then la.take e.level else la).length =
        e.level := by
      split
      · simp [List.length_take]
        omega
      · omega
    simp only [Clirig.renderLines]
    generalize hla1 : (if la.length > e.level then la.take e.level else la) = la1
    rw [hla1] at hlen1
    generalize Clirig.isLastEntry e rest = isL
    rw [if_pos (by simp [hlen1] : (la1.length == e.level) = true)]
    rw [List.dropLast_concat]
    have hnorm := normalize_rendered e.name (hnm e (List.mem_cons_self e rest))
      isL la1
    rw [Clirig.parseGo_cons_ok _ _ _ _ hnorm]
    simp only [List.map_cons]
    rw [takeWhile_tabs _ _ (validName_head_not_tab (hnm e (List.mem_cons_self e rest))),
      dropWhile_tabs _ _ (validName_head_not_tab (hnm e (List.mem_cons_self e rest))),
      string_eta]
    have hih : (Clirig.parseGo (Clirig.renderLines rest (la1 ++ [isL])) (n + 1)).map
        levelName = rest.map levelName := by
      apply ih
      · have hl2 : (la1 ++ [isL]).length = e.level + 1 := by simp [hlen1]
        rw [hl2]
        exact h2
      · intro x hx
        exact hnm x (List.mem_cons_of_mem e hx)
    rw [hih]
    simp [levelName, List.length_replicate, hlen1]

/-- **C1** (counterexample): the entry list `root/` at level 0 followed by
`x` at level 2 has normalizer-valid names and is accepted by the clirig
validator with no errors (its jump guard `2 > len(stack) + 1 = 2` does not
fire), yet rendering it and re-parsing the rendered lines yields the
sequence `[(0, root/), (1, x)]` — the renderer collapses the skipped
level, so the `(level, name)` sequence is NOT reproduced. -/
theorem C1_render_reparse_counterexample :
    (∀ e ∈ ([⟨1, 0, "root/"⟩, ⟨2, 2, "x"⟩] : List Entry),
        Clirig.validNameB e.name = true) ∧
      Clirig.validate_structure [⟨1, 0, "root/"⟩, ⟨2, 2, "x"⟩] = [] ∧
      (Clirig.parse_template
          (Clirig.renderLines [⟨1, 0, "root/"⟩, ⟨2, 2, "x"⟩] [])).map levelName ≠
        ([⟨1, 0, "root/"⟩, ⟨2, 2, "x"⟩] : List Entry).map levelName :=
  ⟨by decide, rfl, by decide⟩

/-- **C1** (amended): the round trip holds for every entry list with
normalizer-valid names that the CRIG validator accepts (crig's jump check
forces the levels to start at 0 and never skip): rendering with the tree
renderer and re-parsing the rendered lines with the normalizer/parser
reproduces exactly the ordered `(level, name)` sequence, names including
their directory suffix.  The clirig validator does not guarantee this: it
also accepts single-level indentation skips, on which the round trip
fails (see the counterexample). -/
theorem C1_render_reparse_amended (s : List Entry)
    (hnm : ∀ e ∈ s, Clirig.validNameB e.name = true)
    (hacc : Crig.validate_structure s = []) :
    (Clirig.parse_template (Clirig.renderLines s [])).map levelName =
      s.map levelName := by
  have hlv : levelsOkB 0 s = true :=
    Crig.validateGo_nil_levels s [] seenEmpty hacc
  exact renderParse s [] 1 hlv hnm

/-- Witness for C1 at the spec's four-entry example template. -/
theorem C1_render_reparse_witness :
    (∀ e ∈ ([⟨1, 0, "myproject/"⟩, ⟨2, 1, "src/"⟩, ⟨3, 2, "main.py"⟩,
        ⟨4, 1, "README.md"⟩] : List Entry), Clirig.validNameB e.name = true) ∧
      Crig.validate_structure [⟨1, 0, "myproject/"⟩, ⟨2, 1, "src/"⟩,
        ⟨3, 2, "main.py"⟩, ⟨4, 1, "README.md"⟩] = [] ∧
      (Clirig.parse_template (Clirig.renderLines [⟨1, 0, "myproject/"⟩,
          ⟨2, 1, "src/"⟩, ⟨3, 2, "main.py"⟩,
          ⟨4, 1, "README.md"⟩] [])).map levelName =
        ([⟨1, 0, "myproject/"⟩, ⟨2, 1, "src/"⟩, ⟨3, 2, "main.py"⟩,
          ⟨4, 1, "README.md"⟩] : List Entry).map levelName :=
  ⟨by decide, by decide, C1_render_reparse_amended _ (by decide) (by decide)⟩
